import Mathlib

/-!
Verification development for the `replvar` template/expression engine.

The Go sources are shallowly embedded below: runes become `Char`, Go slices
of runes become `List Char`, Go `any` values (as produced and consumed by
this package) become the `Value` inductive, the `Var` AST interface becomes
the `GoVar` inductive, and fallible operations return `Except String`.
External collaborators (the `typutil` coercion helpers, the `pjson`
encoder) are modelled from the design document's description of them,
as noted on each definition.
-/

namespace Replvar

/-- The dynamic values flowing through the engine: the Go `any` values this
package produces and consumes (nil, bool, int64, float64, string,
`map[string]any`, `map[string]string`). Go maps are modelled as association
lists with unique keys. -/
inductive Value where
  | null
  | bool (b : Bool)
  | int (n : Int)
  | float (q : ℚ)
  | str (s : String)
  | map (m : List (String × Value))
  | smap (m : List (String × String))
deriving Repr

/-- A numeric value as returned by the numeric-coercion collaborator
(Go `int64`/`uint64` are merged into `Int`, `float64` into `ℚ`). -/
inductive NumV where
  | i (n : Int)
  | f (q : ℚ)
deriving Repr

/-- Truncation toward zero, as Go's `int64(f)` conversion. -/
def ratTrunc (q : ℚ) : Int :=
  q.num.tdiv q.den

/-- View a numeric value as a rational. -/
def NumV.toRat : NumV → ℚ
  | .i n => (n : ℚ)
  | .f q => q

/-- Modelled from the spec: the boolean-coercion primitive
(`typutil.AsBool`), an opaque external collaborator; numbers are true when
nonzero, strings when nonempty, maps when nonempty. -/
def AsBool : Value → Bool
  | .null => false
  | .bool b => b
  | .int n => n != 0
  | .float q => q != 0
  | .str s => s != ""
  | .map m => !m.isEmpty
  | .smap m => !m.isEmpty

/-- Modelled from the spec: the number-to-string / value-to-string
formatting helper (`typutil.AsString`), an opaque external collaborator.
Booleans render as "1"/"0" (as the repository's tests show), integers in
decimal, nil as the empty string; the error it can return is always
discarded by the callers embedded here. -/
def AsString : Value → String
  | .null => ""
  | .bool b => if b then "1" else "0"
  | .int n => toString n
  | .float q => if q.den = 1 then toString q.num else toString q
  | .str s => s
  | .map _ => ""
  | .smap _ => ""

/-- Decimal digit as recognized by the Go source (`'0'` through `'9'`). -/
def isDigitGo (c : Char) : Bool :=
  '0' ≤ c && c ≤ '9'

/-- Modelled from the spec: string-to-number parsing inside the numeric
coercion primitive; unsigned decimal digits with at most one point. -/
def strToNumber (s : List Char) : Option NumV :=
  if s = [] then none
  else if s.all isDigitGo then
    some (.i (s.foldl (fun acc c => acc * 10 + ((c.toNat : Int) - 48)) 0))
  else
    match s.splitOn '.' with
    | [a, b] =>
      if a.all isDigitGo && b.all isDigitGo && a ≠ [] then
        some (.f ((a.foldl (fun acc c => acc * 10 + ((c.toNat : ℚ) - 48)) 0) +
          (b.foldl (fun acc c => acc * 10 + ((c.toNat : ℚ) - 48)) 0) / ((10 : ℚ) ^ b.length)))
      else none
    | _ => none

/-- Modelled from the spec: the numeric-coercion primitive
(`typutil.AsNumber`), an opaque external collaborator. Numbers pass
through, booleans become 0/1, numeric strings are parsed; nil and maps
fail. -/
def AsNumber : Value → Option NumV
  | .int n => some (.i n)
  | .float q => some (.f q)
  | .bool b => some (.i (if b then 1 else 0))
  | .str s => strToNumber s.data
  | .null => none
  | .map _ => none
  | .smap _ => none

/-- Modelled from the spec: the type-tolerant equality of the coercion
collaborator (`typutil.Equal`): numeric comparison when both sides coerce
to numbers (so `40 == "40.0"`), else string comparison. -/
def EqualGo (a b : Value) : Bool :=
  match AsNumber a, AsNumber b with
  | some x, some y => x.toRat == y.toRat
  | _, _ => AsString a == AsString b

/-- Apply an arithmetic/bitwise operator to two coerced numbers. Division
is rational (division by zero yields 0, a behavior the spec leaves to this
collaborator); `%` and the bitwise operators truncate to integers. -/
def applyNumOp (op : String) (x y : NumV) : Option Value :=
  match op, x, y with
  | "+", .i a, .i b => some (.int (a + b))
  | "+", _, _ => some (.float (x.toRat + y.toRat))
  | "-", .i a, .i b => some (.int (a - b))
  | "-", _, _ => some (.float (x.toRat - y.toRat))
  | "*", .i a, .i b => some (.int (a * b))
  | "*", _, _ => some (.float (x.toRat * y.toRat))
  | "/", _, _ => some (.float (x.toRat / y.toRat))
  | "%", _, _ =>
    let a := match x with | .i a => a | .f q => ratTrunc q
    let b := match y with | .i b => b | .f q => ratTrunc q
    some (.int (a.tmod b))
  | "|", _, _ =>
    let a := match x with | .i a => a | .f q => ratTrunc q
    let b := match y with | .i b => b | .f q => ratTrunc q
    some (.int (a.toNat.lor b.toNat))
  | "&", _, _ =>
    let a := match x with | .i a => a | .f q => ratTrunc q
    let b := match y with | .i b => b | .f q => ratTrunc q
    some (.int (a.toNat.land b.toNat))
  | "^", _, _ =>
    let a := match x with | .i a => a | .f q => ratTrunc q
    let b := match y with | .i b => b | .f q => ratTrunc q
    some (.int (a.toNat.xor b.toNat))
  | _, _, _ => none

/-- Modelled from the spec: "a numeric-operation primitive that coerces
operands and applies the operator" (`typutil.Math`), an opaque external
collaborator; `none` models its error return on coercion failure. -/
def MathGo (op : String) (a b : Value) : Option Value :=
  match AsNumber a, AsNumber b with
  | some x, some y => applyNumOp op x y
  | _, _ => none

/-- Lexical token kinds, as the constant block of the newest token source
file of the repository. -/
inductive Token where
  | TokenInvalid
  | TokenVariable
  | TokenNumber
  | TokenStringConstant
  | TokenVariableEnd
  | TokenDot
  | TokenAdd
  | TokenSubtract
  | TokenMultiply
  | TokenDivide
  | TokenModulo
  | TokenEqual
  | TokenDifferent
  | TokenLess
  | TokenLessEqual
  | TokenGreater
  | TokenGreaterEqual
  | TokenNot
  | TokenBitwiseNot
  | TokenOr
  | TokenLogicOr
  | TokenAnd
  | TokenLogicAnd
  | TokenXor
  | TokenShiftLeft
  | TokenShiftRight
deriving Repr, DecidableEq

/-- `operatorPrecedence` from the token source: lower values bind tighter;
tokens absent from the table (via `Precedence`) report 0. -/
def operatorPrecedence : Token → Option Nat
  | .TokenNot => some 2
  | .TokenBitwiseNot => some 2
  | .TokenMultiply => some 3
  | .TokenDivide => some 3
  | .TokenModulo => some 3
  | .TokenAdd => some 4
  | .TokenSubtract => some 4
  | .TokenShiftLeft => some 5
  | .TokenShiftRight => some 5
  | .TokenLess => some 6
  | .TokenLessEqual => some 6
  | .TokenGreater => some 6
  | .TokenGreaterEqual => some 6
  | .TokenEqual => some 7
  | .TokenDifferent => some 7
  | .TokenAnd => some 8
  | .TokenXor => some 9
  | .TokenOr => some 10
  | .TokenLogicAnd => some 11
  | .TokenLogicOr => some 12
  | _ => none

/-- `Token.Precedence`. -/
def Token.Precedence (t : Token) : Nat :=
  (operatorPrecedence t).getD 0

/-- `Token.IsUnary`. -/
def Token.IsUnary (t : Token) : Bool :=
  t = .TokenNot || t = .TokenBitwiseNot

/-- `Token.MathOp`: the operator symbol handed to `varMath`, empty for
tokens that are not math/logic operators. -/
def Token.MathOp : Token → String
  | .TokenAdd => "+"
  | .TokenSubtract => "-"
  | .TokenMultiply => "*"
  | .TokenDivide => "/"
  | .TokenModulo => "%"
  | .TokenOr => "|"
  | .TokenAnd => "&"
  | .TokenXor => "^"
  | .TokenLogicOr => "||"
  | .TokenLogicAnd => "&&"
  | .TokenEqual => "=="
  | .TokenDifferent => "!="
  | .TokenLess => "<"
  | .TokenLessEqual => "<="
  | .TokenGreater => ">"
  | .TokenGreaterEqual => ">="
  | .TokenShiftLeft => "<<"
  | .TokenShiftRight => ">>"
  | _ => ""

/-- `parser.readNumberToken`: consume a run of digits containing at most
one decimal point; returns the consumed literal and the remaining buffer.
The Go loop's `hasDot` flag is the first argument. -/
def readNumberToken (hasDot : Bool) : List Char → List Char × List Char
  | [] => ([], [])
  | c :: rest =>
    if isDigitGo c then
      let (r, rem) := readNumberToken hasDot rest
      (c :: r, rem)
    else if c = '.' then
      if hasDot then ([], c :: rest)
      else
        let (r, rem) := readNumberToken true rest
        (c :: r, rem)
    else ([], c :: rest)

/-- Identifier character: letters, digits and underscore. -/
def isIdentChar (c : Char) : Bool :=
  ('a' ≤ c && c ≤ 'z') || ('A' ≤ c && c ≤ 'Z') || ('0' ≤ c && c ≤ '9') || c = '_'

/-- Identifier start character: letters and underscore. -/
def isIdentStart (c : Char) : Bool :=
  ('a' ≤ c && c ≤ 'z') || ('A' ≤ c && c ≤ 'Z') || c = '_'

/-- `parser.readVariableToken`: consume a run of identifier characters. -/
def readVariableToken : List Char → List Char × List Char
  | [] => ([], [])
  | c :: rest =>
    if isIdentChar c then
      let (r, rem) := readVariableToken rest
      (c :: r, rem)
    else ([], c :: rest)

/-- `parser.readToken`: produce the next token, its literal data and the
remaining buffer. Whitespace is skipped; an empty buffer (Go `cur = -1`)
falls into the default branch and yields `TokenInvalid`. The buffer is
left unadvanced on the invalid `=`, invalid `}` and default-invalid
branches, exactly as in the source. -/
def readToken : List Char → Token × List Char × List Char
  | [] => (.TokenInvalid, [], [])
  | c :: rest =>
    if isDigitGo c then
      let (d, rem) := readNumberToken false (c :: rest)
      (.TokenNumber, d, rem)
    else if c = '"' || c = '\'' || c = '`' then (.TokenStringConstant, [c], rest)
    else if c = '.' then (.TokenDot, [], rest)
    else if c = '+' then (.TokenAdd, [], rest)
    else if c = '-' then (.TokenSubtract, [], rest)
    else if c = '*' then (.TokenMultiply, [], rest)
    else if c = '/' then (.TokenDivide, [], rest)
    else if c = '%' then (.TokenModulo, [], rest)
    else if c = '^' then (.TokenXor, [], rest)
    else if c = '~' then (.TokenBitwiseNot, [], rest)
    else if c = '<' then
      match rest with
      | '<' :: r2 => (.TokenShiftLeft, [], r2)
      | '=' :: r2 => (.TokenLessEqual, [], r2)
      | _ => (.TokenLess, [], rest)
    else if c = '>' then
      match rest with
      | '>' :: r2 => (.TokenShiftRight, [], r2)
      | '=' :: r2 => (.TokenGreaterEqual, [], r2)
      | _ => (.TokenGreater, [], rest)
    else if c = '=' then
      match rest with
      | '=' :: r2 => (.TokenEqual, [], r2)
      | _ => (.TokenInvalid, [c], c :: rest)
    else if c = '!' then
      match rest with
      | '=' :: r2 => (.TokenDifferent, [], r2)
      | _ => (.TokenNot, [], rest)
    else if c = '|' then
      match rest with
      | '|' :: r2 => (.TokenLogicOr, [], r2)
      | _ => (.TokenOr, [], rest)
    else if c = '&' then
      match rest with
      | '&' :: r2 => (.TokenLogicAnd, [], r2)
      | _ => (.TokenAnd, [], rest)
    else if c = '}' then
      match rest with
      | '}' :: r2 => (.TokenVariableEnd, ['}', '}'], r2)
      | _ => (.TokenInvalid, [c], c :: rest)
    else if c = ' ' || c = '\t' || c = '\r' || c = '\n' then readToken rest
    else if isIdentStart c then
      let (d, rem) := readVariableToken (c :: rest)
      (.TokenVariable, d, rem)
    else (.TokenInvalid, [c], c :: rest)

/-- Evaluation context: the Go `context.Context` as used here, a name-to-
value lookup where `ctx.Value` yields nil (here `.null`) for unknown
names. -/
def Ctx : Type := String → Value

/-- The AST node variants: each constructor is one implementation of the
Go `Var` interface from the newest type source file. `varFilter` is the
filter-application node: the parser source that builds it is not in the
repository snapshot (only the filter registry, the README and the tests
are), so its shape is modelled from the spec's FilterApplication variant. -/
inductive GoVar where
  | staticVar (v : Value)
  | varConcat (l : List GoVar)
  | varFetchFromCtx (name : String)
  | varPendingToken (t : Token)
  | varNull
  | varNot (sub : GoVar)
  | varBitwiseNot (sub : GoVar)
  | varAccessOffset (sub : GoVar) (offset : String)
  | varMath (a b : GoVar) (op : String)
  | varJsonMarshal (obj : GoVar)
  | varFilter (input : GoVar) (name : String) (args : List GoVar)
deriving Repr

/-- `IsStatic` of each node, conjunctive over children; `varFilter` is
never static (the filter is an opaque external function, per the spec). -/
def IsStatic : GoVar → Bool
  | .staticVar _ => true
  | .varConcat l => goList l
  | .varFetchFromCtx _ => false
  | .varPendingToken _ => true
  | .varNull => true
  | .varNot sub => IsStatic sub
  | .varBitwiseNot sub => IsStatic sub
  | .varAccessOffset sub _ => IsStatic sub
  | .varMath a b _ => IsStatic a && IsStatic b
  | .varJsonMarshal obj => IsStatic obj
  | .varFilter _ _ _ => false
where
  /-- all-children-static check of `varConcat.IsStatic`. -/
  goList : List GoVar → Bool
  | [] => true
  | x :: rest => IsStatic x && goList rest

/-- Go's `%T` formatting of the values in play, used in the member-access
error message. -/
def typeName : Value → String
  | .null => "<nil>"
  | .bool _ => "bool"
  | .int _ => "int64"
  | .float _ => "float64"
  | .str _ => "string"
  | .map _ => "map[string]interface \x7b\x7d"
  | .smap _ => "map[string]string"

/-- `varAccessOffset.Resolve` after the base has been resolved: field
lookup on the two mapping types (Go map indexing yields the zero value for
an absent key: nil for `map[string]any`, "" for `map[string]string`);
anything else is the "lookup failed" error. -/
def accessOffset (offset : String) (v : Value) : Except String Value :=
  match v with
  | .map m => .ok ((m.lookup offset).getD .null)
  | .smap m => .ok (.str ((m.lookup offset).getD ""))
  | _ => .error ("lookup failed, offset=" ++ offset ++ " cur type=" ++ typeName v)

/-- `varBitwiseNot.Resolve` after the operand has been resolved. -/
def bitwiseNotValue (v : Value) : Except String Value :=
  match AsNumber v with
  | some (.i n) => .ok (.int (-(n + 1)))
  | some (.f q) => .ok (.int (-(ratTrunc q + 1)))
  | none => .error ("bitwise NOT requires numeric operand, got " ++ typeName v)

/-- `compareInt64`/`compareFloat64`, merged over the modelled numerics. -/
def compareRat (a b : ℚ) : Int :=
  if a < b then -1 else if a > b then 1 else 0

/-- `varMath.resolveComparison`: numeric comparison when both operands
coerce to numbers, else lexicographic string comparison. -/
def resolveComparison (op : String) (a b : Value) : Except String Value :=
  match AsNumber a, AsNumber b with
  | some x, some y =>
    let cmp := compareRat x.toRat y.toRat
    match op with
    | "<" => .ok (.bool (cmp < 0))
    | "<=" => .ok (.bool (cmp ≤ 0))
    | ">" => .ok (.bool (cmp > 0))
    | ">=" => .ok (.bool (cmp ≥ 0))
    | _ => .ok (.bool false)
  | _, _ =>
    let strA := AsString a
    let strB := AsString b
    match op with
    | "<" => .ok (.bool (strA < strB))
    | "<=" => .ok (.bool (strA ≤ strB))
    | ">" => .ok (.bool (strA > strB))
    | ">=" => .ok (.bool (strA ≥ strB))
    | _ => .ok (.bool false)

/-- Shift amounts: Go converts the right operand through `uint64`;
negative amounts are clamped here (no claim depends on that corner). -/
def shiftAmount : NumV → Nat
  | .i n => n.toNat
  | .f q => (ratTrunc q).toNat

/-- `varMath.resolveShift`: both operands must coerce to numbers, else the
"shift operators require numeric operands" error; shifts are arithmetic. -/
def resolveShift (op : String) (a b : Value) : Except String Value :=
  match AsNumber a, AsNumber b with
  | some x, some y =>
    let va : Int := match x with | .i n => n | .f q => ratTrunc q
    let vb : Nat := shiftAmount y
    match op with
    | "<<" => .ok (.int (va * 2 ^ vb))
    | ">>" => .ok (.int (va / 2 ^ vb))
    | _ => .ok .null
  | _, _ => .error "shift operators require numeric operands"

/-- The operator dispatch of `varMath.Resolve`, applied once both operands
have resolved. The default branch discards the error of the numeric
primitive (`res, _ := typutil.Math(...)`; `return res, nil`), so a
coercion failure there yields nil with a nil error. -/
def resolveMathOp (op : String) (a b : Value) : Except String Value :=
  match op with
  | "&&" => .ok (.bool (AsBool a && AsBool b))
  | "||" => .ok (.bool (AsBool a || AsBool b))
  | "==" => .ok (.bool (EqualGo a b))
  | "!=" => .ok (.bool (!EqualGo a b))
  | "<" | "<=" | ">" | ">=" => resolveComparison op a b
  | "<<" | ">>" => resolveShift op a b
  | _ => .ok ((MathGo op a b).getD .null)

/-- Modelled from the spec: the `pjson` JSON encoder, an opaque external
collaborator (only `varJsonMarshal` and the `json` filter use it; no claim
depends on its exact output). -/
def jsonEncode : Value → String
  | .null => "null"
  | .bool b => if b then "true" else "false"
  | .int n => toString n
  | .float q => toString q
  | .str s => "\x22" ++ s ++ "\x22"
  | .map m => "\x7b" ++ String.intercalate ","
      (jsonFields m) ++ "\x7d"
  | .smap m => "\x7b" ++ String.intercalate ","
      (m.map (fun kv => "\x22" ++ kv.1 ++ "\x22:\x22" ++ kv.2 ++ "\x22")) ++ "\x7d"
where
  /-- encoded fields of an object. -/
  jsonFields : List (String × Value) → List String
  | [] => []
  | (k, v) :: rest => ("\x22" ++ k ++ "\x22:" ++ jsonEncode v) :: jsonFields rest

/-- A registered filter function (`FilterFunc`). -/
def FilterFunc : Type := Ctx → Value → List Value → Except String Value

/-- ASCII uppercasing of one character. -/
def upperChar (c : Char) : Char :=
  if 'a' ≤ c && c ≤ 'z' then Char.ofNat (c.toNat - 32) else c

/-- ASCII lowercasing of one character. -/
def lowerChar (c : Char) : Char :=
  if 'A' ≤ c && c ≤ 'Z' then Char.ofNat (c.toNat + 32) else c

/-- Modelled from the spec: Go `strings.ToUpper`, an external collaborator
(ASCII range only; the repository's tests only exercise ASCII). -/
def goToUpper (s : String) : String := String.mk (s.data.map upperChar)

/-- Modelled from the spec: Go `strings.ToLower`, an external
collaborator (ASCII range only). -/
def goToLower (s : String) : String := String.mk (s.data.map lowerChar)

/-- `filterUpper`. -/
def filterUpper : FilterFunc := fun _ input _ =>
  .ok (.str (goToUpper (AsString input)))

/-- `filterLower`. -/
def filterLower : FilterFunc := fun _ input _ =>
  .ok (.str (goToLower (AsString input)))

/-- `filterJSON`, through the modelled encoder. -/
def filterJSON : FilterFunc := fun _ input _ =>
  .ok (.str (jsonEncode input))

/-- Modelled from the spec: `html.EscapeString` of the Go standard
library, an external collaborator used by `filterHTML`. -/
def htmlEscape (s : String) : String :=
  s.data.foldr (fun c acc =>
    (if c = '&' then "&amp;"
     else if c = '<' then "&lt;"
     else if c = '>' then "&gt;"
     else if c = '\x27' then "&#39;"
     else if c = '"' then "&#34;"
     else String.singleton c) ++ acc) ""

/-- `filterHTML`. -/
def filterHTML : FilterFunc := fun _ input _ =>
  .ok (.str (htmlEscape (AsString input)))

/-- Modelled from the spec: `url.QueryEscape` of the Go standard library,
an external collaborator used by `filterURL` (simplified to the characters
that never need escaping; no claim depends on it). -/
def urlEscape (s : String) : String :=
  s.data.foldr (fun c acc =>
    (if c.isAlphanum || c = '-' || c = '_' || c = '.' then String.singleton c
     else if c = ' ' then "+"
     else "%" ++ String.singleton c) ++ acc) ""

/-- `filterURL`. -/
def filterURL : FilterFunc := fun _ input _ =>
  .ok (.str (urlEscape (AsString input)))

/-- `LookupFilter` over the registry populated by the filter source file's
init block: the five built-in filters. -/
def LookupFilter (name : String) : Option FilterFunc :=
  if name = "json" then some filterJSON
  else if name = "html" then some filterHTML
  else if name = "url" then some filterURL
  else if name = "upper" then some filterUpper
  else if name = "lower" then some filterLower
  else none

mutual

/-- `Var.Resolve` for every node variant, dispatching on the constructor;
stateful Go error returns become `Except`. The `varFilter` evaluation is
modelled from the spec's FilterApplication semantics (evaluate input and
arguments, look the filter up by name — an unregistered name is an
error — and invoke it). -/
def Resolve (v : GoVar) (ctx : Ctx) : Except String Value :=
  match v with
  | .staticVar x => .ok x
  | .varConcat l => do
    let s ← resolveConcat l ctx
    .ok (.str s)
  | .varFetchFromCtx name => .ok (ctx name)
  | .varPendingToken _ => .error "this value should never happen (pending token)"
  | .varNull => .ok .null
  | .varNot sub => do
    let s ← Resolve sub ctx
    .ok (.bool (!AsBool s))
  | .varBitwiseNot sub => do
    let s ← Resolve sub ctx
    bitwiseNotValue s
  | .varAccessOffset sub offset => do
    let s ← Resolve sub ctx
    accessOffset offset s
  | .varMath a b op => do
    let va ← Resolve a ctx
    let vb ← Resolve b ctx
    resolveMathOp op va vb
  | .varJsonMarshal obj => do
    let r ← Resolve obj ctx
    .ok (.str (jsonEncode r))
  | .varFilter input name args => do
    let iv ← Resolve input ctx
    let avs ← resolveArgs args ctx
    match LookupFilter name with
    | none => .error ("unknown filter " ++ name)
    | some f => f ctx iv avs

/-- `varConcat.Resolve`'s loop: resolve children in order (all of them),
stringify each and concatenate. -/
def resolveConcat (l : List GoVar) (ctx : Ctx) : Except String String :=
  match l with
  | [] => .ok ""
  | x :: rest => do
    let v ← Resolve x ctx
    let s ← resolveConcat rest ctx
    .ok (AsString v ++ s)

/-- Evaluation of a filter's argument list, in order. -/
def resolveArgs (l : List GoVar) (ctx : Ctx) : Except String (List Value) :=
  match l with
  | [] => .ok []
  | x :: rest => do
    let v ← Resolve x ctx
    let vs ← resolveArgs rest ctx
    .ok (v :: vs)

end

/-- `escapedChars`: escape sequences recognized inside double-quoted
literals. -/
def escapedChars (c : Char) : Option Char :=
  if c = 'r' then some '\r'
  else if c = 'n' then some '\n'
  else if c = 't' then some '\t'
  else if c = 'v' then some (Char.ofNat 11)
  else if c = '\\' then some '\\'
  else none

/-- The flush step of `parser.parseString`: a non-empty pending literal
buffer is appended to the node list as a `staticVar`. -/
def flushStr (str : List Char) (res : List GoVar) : List GoVar :=
  if str = [] then res else res ++ [.staticVar (.str (String.mk str))]

/-- The return step of `parser.parseString`: the single contained node
when exactly one was produced, a `varConcat` of the list otherwise. -/
def parseStringFinish : List GoVar → GoVar
  | [x] => x
  | xs => .varConcat xs

/-- Is this node the transient Stage-1 operator placeholder? -/
def isPending : GoVar → Bool
  | .varPendingToken _ => true
  | _ => false

/-- Is this node a bare context lookup (a bare identifier)? -/
def isFetch : GoVar → Bool
  | .varFetchFromCtx _ => true
  | _ => false

/-- Modelled from the spec: the member-access reduction of Stage 2 (the
precedence-aware `parser.parse` of the current release is not in the
repository snapshot). `.` binds tightest; the element after the dot must
be a bare identifier, whose name becomes the access offset; chains reduce
left to right. -/
def reduceDots (fuel : Nat) (l : List GoVar) : Except String (List GoVar) :=
  match fuel with
  | 0 => .error "internal: fuel exhausted"
  | fuel + 1 =>
    match l with
    | x :: .varPendingToken .TokenDot :: rest =>
      if isPending x then .error "invalid syntax: dot without base value"
      else
        match rest with
        | .varFetchFromCtx name :: rest' => reduceDots fuel (.varAccessOffset x name :: rest')
        | _ => .error "invalid syntax: dot not followed by var"
    | x :: rest => do
      let r ← reduceDots fuel rest
      .ok (x :: r)
    | [] => .ok []

/-- Modelled from the spec: the unary-operator reduction of Stage 2
(rank 2 of the precedence table): a pending `!` or `~` combines with the
resolved element immediately after it; inner (rightmost) occurrences
reduce first so stacked unary operators nest correctly. -/
def reduceUnary : List GoVar → List GoVar
  | [] => []
  | x :: rest =>
    let rest' := reduceUnary rest
    match x, rest' with
    | .varPendingToken t, y :: rest'' =>
      if t.IsUnary && !isPending y then
        (if t = .TokenNot then GoVar.varNot y else GoVar.varBitwiseNot y) :: rest''
      else x :: rest'
    | _, _ => x :: rest'

/-- Modelled from the spec: one precedence tier of the Stage-2 binary
reduction. The structurally leftmost pending binary operator of rank `r`
whose neighbors are both resolved combines them into a `varMath` node,
giving left associativity within the tier; a bitwise-or token followed by
a bare identifier is left for the filter pass (the pipe-filter tier is
below every operator tier). -/
def reduceBinAt (fuel : Nat) (r : Nat) (l : List GoVar) : List GoVar :=
  match fuel with
  | 0 => l
  | fuel + 1 =>
    match l with
    | x :: .varPendingToken t :: y :: rest =>
      if t.Precedence = r && t.MathOp != "" && !isPending x && !isPending y
          && !(t == .TokenOr && isFetch y) then
        reduceBinAt fuel r (.varMath x y t.MathOp :: rest)
      else
        x :: reduceBinAt fuel r (.varPendingToken t :: y :: rest)
    | x :: rest => x :: reduceBinAt fuel r rest
    | [] => []

/-- Modelled from the spec: the pipe-filter tier, the lowest of all. A
resolved node, a pending `|` and a bare identifier collapse into a
`varFilter` applying the named filter, left to right, so `a|upper|lower`
applies `upper` first. (The current tokenizer produces no parenthesis
token, so argument lists cannot be formed and are always empty.) -/
def reduceFilters (fuel : Nat) (l : List GoVar) : List GoVar :=
  match fuel with
  | 0 => l
  | fuel + 1 =>
    match l with
    | x :: .varPendingToken .TokenOr :: .varFetchFromCtx name :: rest =>
      if isPending x then
        x :: reduceFilters fuel (.varPendingToken .TokenOr :: .varFetchFromCtx name :: rest)
      else
        reduceFilters fuel (.varFilter x name [] :: rest)
    | x :: rest => x :: reduceFilters fuel rest
    | [] => []

/-- Modelled from the spec: Stage 2 of `parser.parse`. An empty Stage-1
sequence yields `varNull`; otherwise member access, unary operators, the
binary tiers in precedence order (tightest first) and finally the filter
tier are reduced, and exactly one node must remain. -/
def parseStage2Ex (res : List GoVar) : Except String GoVar :=
  match res with
  | [] => .ok .varNull
  | _ => do
    let fuel := res.length + 1
    let r1 ← reduceDots fuel res
    let r2 := reduceUnary r1
    let r3 := reduceBinAt fuel 3 r2
    let r4 := reduceBinAt fuel 4 r3
    let r5 := reduceBinAt fuel 5 r4
    let r6 := reduceBinAt fuel 6 r5
    let r7 := reduceBinAt fuel 7 r6
    let r8 := reduceBinAt fuel 8 r7
    let r9 := reduceBinAt fuel 9 r8
    let r10 := reduceBinAt fuel 10 r9
    let r11 := reduceBinAt fuel 11 r10
    let r12 := reduceBinAt fuel 12 r11
    match reduceFilters fuel r12 with
    | [v] => .ok v
    | _ => .error "invalid syntax: could not reduce expression"

mutual

/-- The Stage-1 loop of `parser.parse`: tokens become nodes (operators
become `varPendingToken` placeholders) until the buffer ends (an error
when a `}}` terminator was expected) or `}}` is read (an error when it was
not). The `fuel` argument only bounds recursion depth; every recursive
call consumes input, so any fuel exceeding the measures used by the entry
points below is enough. -/
def parseVarLoop (fuel : Nat) (varStart : Bool) (acc : List GoVar)
    (buf : List Char) : Except String (List GoVar × List Char) :=
  match fuel with
  | 0 => .error "internal: fuel exhausted"
  | fuel + 1 =>
    match buf with
    | [] =>
      if varStart then .error "unexpected EOF"
      else .ok (acc, [])
    | b :: brest =>
      let (tok, dat, rest) := readToken (b :: brest)
      match tok with
      | .TokenVariableEnd =>
        if varStart then .ok (acc, rest) else .error "unexpected token \x7d\x7d"
      | .TokenStringConstant =>
        match dat with
        | [q] => do
          let (vars, rest') ← parseStringLoop fuel (some q) "text" [] [] rest
          parseVarLoop fuel varStart (acc ++ [parseStringFinish vars]) rest'
        | _ => .error "internal: string token without delimiter"
      | .TokenNumber =>
        match strToNumber dat with
        | some (.i n) => parseVarLoop fuel varStart (acc ++ [.staticVar (.int n)]) rest
        | some (.f q) => parseVarLoop fuel varStart (acc ++ [.staticVar (.float q)]) rest
        | none => .error ("invalid number: " ++ String.mk dat)
      | .TokenVariable =>
        parseVarLoop fuel varStart (acc ++ [.varFetchFromCtx (String.mk dat)]) rest
      | .TokenInvalid => .error ("invalid token found, value=" ++ String.mk dat)
      | _ => parseVarLoop fuel varStart (acc ++ [.varPendingToken tok]) rest

/-- The scanning loop of `parser.parseString`: grows the pending literal
buffer `str`, handles the three escape rules (terminator escape, the
double-quote-only escape table, backslash collapse), recurses into
`parser.parse` on a `{{` start (JSON mode wraps the resulting node), and
finishes on the terminator (`cut = none` models Go's `-1`, end of
input). -/
def parseStringLoop (fuel : Nat) (cut : Option Char) (mode : String)
    (str : List Char) (res : List GoVar) (buf : List Char) :
    Except String (List GoVar × List Char) :=
  match fuel with
  | 0 => .error "internal: fuel exhausted"
  | fuel + 1 =>
    match buf with
    | [] =>
      if cut = none then .ok (flushStr str res, [])
      else .error "unexpected EOF"
    | c :: rest =>
      if some c = cut then .ok (flushStr str res, rest)
      else if c = '\\' then
        match rest with
        | [] => parseStringLoop fuel cut mode (str ++ [c]) res rest
        | nc :: r2 =>
          if some nc = cut then parseStringLoop fuel cut mode (str ++ [nc]) res r2
          else
            match (if cut = some '"' then escapedChars nc else none) with
            | some m => parseStringLoop fuel cut mode (str ++ [m]) res r2
            | none =>
              if nc = '\\' then parseStringLoop fuel cut mode (str ++ [nc]) res r2
              else parseStringLoop fuel cut mode (str ++ [c]) res (nc :: r2)
      else if c = '{' then
        if rest.head? = some '{' then do
          let res1 := flushStr str res
          let (vars, rest') ← parseVarLoop fuel true [] rest.tail
          let sub ← parseStage2Ex vars
          let sub2 := if mode = "json" then GoVar.varJsonMarshal sub else sub
          parseStringLoop fuel cut mode [] (res1 ++ [sub2]) rest'
        else parseStringLoop fuel cut mode (str ++ [c]) res rest
      else parseStringLoop fuel cut mode (str ++ [c]) res rest

end

/-- `ParseString`: parse a whole template (terminator: end of input). -/
def ParseStringGo (s : String) (mode : String) : Except String GoVar := do
  let (vars, _) ← parseStringLoop (4 * s.length + 8) none mode [] [] s.data
  .ok (parseStringFinish vars)

/-- `ParseVariable`: parse bare placeholder contents. -/
def ParseVariableGo (s : String) : Except String GoVar := do
  let (vars, _) ← parseVarLoop (4 * s.length + 8) false [] s.data
  parseStage2Ex vars

/-- `Replace`: parse and resolve in one step, stringifying the result
(the stringification error being discarded, as in the source). -/
def ReplaceGo (ctx : Ctx) (s : String) (mode : String) : Except String String := do
  let v ← ParseStringGo s mode
  let r ← Resolve v ctx
  .ok (AsString r)

/-- Does the character list contain `a` immediately followed by `b`? -/
def hasSub2 (a b : Char) : List Char → Bool
  | x :: y :: rest => (x = a && y = b) || hasSub2 a b (y :: rest)
  | _ => false

/-- Is the value one of the two mapping types member access accepts? -/
def isMappingValue : Value → Bool
  | .map _ => true
  | .smap _ => true
  | _ => false

/-- The context used for concrete witnesses: every name is unknown
(resolves to nil). -/
def ctx0 : Ctx := fun _ => .null

/-- C1: the parser respects the precedence table: `{{2 + 3 * 4}}`
evaluates to "14", `{{10 - 2 * 3}}` to "4" and `{{1 || 0 && 0}}` to "1"
(multiplication binds tighter than addition and subtraction, `&&` tighter
than `||`), for every context. -/
theorem claim1_precedence (ctx : Ctx) :
    ReplaceGo ctx "\x7b\x7b2 + 3 * 4\x7d\x7d" "text" = .ok "14"
    ∧ ReplaceGo ctx "\x7b\x7b10 - 2 * 3\x7d\x7d" "text" = .ok "4"
    ∧ ReplaceGo ctx "\x7b\x7b1 || 0 && 0\x7d\x7d" "text" = .ok "1" :=
  ⟨by rfl, by rfl, by rfl⟩

/-- C2: with `var = "world"` in the context, `{{var|upper|lower}}`
applies the registered `upper` filter first and `lower` to its result,
producing "world". -/
theorem claim2_filter_chain (ctx : Ctx) (h : ctx "var" = .str "world") :
    ReplaceGo ctx "\x7b\x7bvar|upper|lower\x7d\x7d" "text" = .ok "world" := by
  have hstep : ReplaceGo ctx "\x7b\x7bvar|upper|lower\x7d\x7d" "text"
      = .ok (goToLower (goToUpper (AsString (ctx "var")))) := by rfl
  rw [hstep, h]
  rfl

/-- Witness for C2 at a concrete context binding `var` to "world". -/
theorem claim2_witness :
    (fun n => if n = "var" then Value.str "world" else Value.null) "var" = Value.str "world"
    ∧ ReplaceGo (fun n => if n = "var" then Value.str "world" else Value.null)
        "\x7b\x7bvar|upper|lower\x7d\x7d" "text" = .ok "world" :=
  ⟨rfl, claim2_filter_chain (fun n => if n = "var" then Value.str "world" else Value.null) rfl⟩

/-- C10: a leftover Stage-1 operator placeholder always resolves to an
error, for every operator token and every context, and yet reports itself
as static — so `IsStatic` returning true does not imply that `Resolve`
succeeds. -/
theorem claim10_pending_token (t : Token) (ctx : Ctx) :
    Resolve (.varPendingToken t) ctx = .error "this value should never happen (pending token)"
    ∧ IsStatic (.varPendingToken t) = true :=
  ⟨rfl, rfl⟩

/-- C5 counterexample: a `varMath` addition whose left operand (a map)
cannot be coerced to a number resolves to nil with a nil error — a value,
not the evaluation error the claim requires for every numeric operator. -/
theorem claim5_counterexample :
    Resolve (.varMath (.staticVar (.map [])) (.staticVar (.int 1)) "+") ctx0 = .ok .null
    ∧ ∀ e, Resolve (.varMath (.staticVar (.map [])) (.staticVar (.int 1)) "+") ctx0
        ≠ .error e := by
  refine ⟨rfl, fun e he => ?_⟩
  rw [show Resolve (.varMath (.staticVar (.map [])) (.staticVar (.int 1)) "+") ctx0
      = .ok .null from rfl] at he
  exact Except.noConfusion he

/-- C5 amended: only the shift operators `<<` and `>>` report an
evaluation error when an operand cannot be coerced to a number; for the
arithmetic and bitwise operators `+ - * / % | & ^` the numeric
primitive's error is discarded and evaluation returns nil without an
error. -/
theorem claim5_amended (ctx : Ctx) (a b : GoVar) (va vb : Value)
    (ha : Resolve a ctx = .ok va) (hb : Resolve b ctx = .ok vb)
    (hnum : AsNumber va = none) :
    Resolve (.varMath a b "<<") ctx = .error "shift operators require numeric operands"
    ∧ Resolve (.varMath a b ">>") ctx = .error "shift operators require numeric operands"
    ∧ ∀ op, op ∈ (["+", "-", "*", "/", "%", "|", "&", "^"] : List String) →
        Resolve (.varMath a b op) ctx = .ok Value.null := by
  have key : ∀ op, Resolve (.varMath a b op) ctx = resolveMathOp op va vb := by
    intro op
    show (do
      let x ← Resolve a ctx
      let y ← Resolve b ctx
      resolveMathOp op x y) = _
    rw [ha, hb]
    rfl
  refine ⟨?_, ?_, ?_⟩
  · rw [key]
    simp [resolveMathOp, resolveShift, hnum]
  · rw [key]
    simp [resolveMathOp, resolveShift, hnum]
  · intro op hop
    rw [key]
    simp only [List.mem_cons, List.not_mem_nil, or_false] at hop
    rcases hop with rfl | rfl | rfl | rfl | rfl | rfl | rfl | rfl <;>
      simp [resolveMathOp, MathGo, hnum]

/-- Witness for C5 amended, at a map left operand and integer right
operand. -/
theorem claim5_witness :
    Resolve (.varMath (.staticVar (.map [])) (.staticVar (.int 1)) "<<") ctx0
      = .error "shift operators require numeric operands"
    ∧ Resolve (.varMath (.staticVar (.map [])) (.staticVar (.int 1)) "%") ctx0
      = .ok Value.null :=
  ⟨(claim5_amended ctx0 (.staticVar (.map [])) (.staticVar (.int 1))
      (.map []) (.int 1) rfl rfl rfl).1,
   (claim5_amended ctx0 (.staticVar (.map [])) (.staticVar (.int 1))
      (.map []) (.int 1) rfl rfl rfl).2.2 "%" (by simp)⟩

/-- C7: `&&` and `||` evaluate both operands unconditionally: an error
from the right operand propagates even when the left operand alone fixes
the boolean outcome, and when both succeed the result is the logical
combination of the two boolean coercions. -/
theorem claim7_no_short_circuit (ctx : Ctx) (a b : GoVar) (va : Value)
    (ha : Resolve a ctx = .ok va) :
    (∀ e, Resolve b ctx = .error e →
      Resolve (.varMath a b "&&") ctx = .error e
      ∧ Resolve (.varMath a b "||") ctx = .error e)
    ∧ (∀ vb, Resolve b ctx = .ok vb →
      Resolve (.varMath a b "&&") ctx = .ok (.bool (AsBool va && AsBool vb))
      ∧ Resolve (.varMath a b "||") ctx = .ok (.bool (AsBool va || AsBool vb))) := by
  have key : ∀ op, Resolve (.varMath a b op) ctx
      = (do
        let y ← Resolve b ctx
        resolveMathOp op va y) := by
    intro op
    show (do
      let x ← Resolve a ctx
      let y ← Resolve b ctx
      resolveMathOp op x y) = _
    rw [ha]
    rfl
  constructor
  · intro e he
    rw [key, key, he]
    exact ⟨rfl, rfl⟩
  · intro vb hvb
    rw [key, key, hvb]
    exact ⟨rfl, rfl⟩

/-- Witness for C7: with a falsy left operand (0) and a right operand
whose resolution fails (member access on nil), `0 && error` still
errors — the right side was evaluated although the left side alone
determines a false conjunction. -/
theorem claim7_witness :
    Resolve (.varAccessOffset (.staticVar .null) "x") ctx0
      = .error "lookup failed, offset=x cur type=<nil>"
    ∧ AsBool (Value.int 0) = false
    ∧ Resolve (.varMath (.staticVar (.int 0)) (.varAccessOffset (.staticVar .null) "x") "&&") ctx0
      = .error "lookup failed, offset=x cur type=<nil>" :=
  ⟨rfl, rfl,
    ((claim7_no_short_circuit ctx0 (.staticVar (.int 0))
        (.varAccessOffset (.staticVar .null) "x") (.int 0) rfl).1
      "lookup failed, offset=x cur type=<nil>" rfl).1⟩

/-- C4 counterexample: `parseString` on empty input produces an empty
`varConcat`, not an `Empty` node — and it evaluates to the empty string,
not to null. -/
theorem claim4_counterexample :
    ParseStringGo "" "text" = .ok (.varConcat [])
    ∧ Resolve (.varConcat []) ctx0 = .ok (.str "")
    ∧ Value.str "" ≠ Value.null := by
  refine ⟨rfl, rfl, ?_⟩
  intro h
  exact Value.noConfusion h

/-- C4 amended: the literal parser's final output is the single contained
node when exactly one node was produced and a `Concatenation` node in
every other case — in particular parsing an empty input yields an empty
`Concatenation`, which evaluates to the empty string (not null). -/
theorem claim4_amended :
    (∀ v, parseStringFinish [v] = v)
    ∧ (∀ l : List GoVar, l.length ≠ 1 → parseStringFinish l = .varConcat l)
    ∧ (∀ ctx, Resolve (.varConcat []) ctx = .ok (.str ""))
    ∧ ParseStringGo "" "text" = .ok (.varConcat []) := by
  refine ⟨fun v => rfl, ?_, fun ctx => rfl, rfl⟩
  intro l hl
  match l with
  | [] => rfl
  | [x] => exact absurd rfl hl
  | x :: y :: rest => rfl

/-- Witness for C4 amended, at the empty and a two-element node list. -/
theorem claim4_witness :
    parseStringFinish [] = .varConcat []
    ∧ parseStringFinish [.varNull, .varNull] = .varConcat [.varNull, .varNull] :=
  ⟨claim4_amended.2.1 [] (by decide),
   claim4_amended.2.1 [.varNull, .varNull] (by decide)⟩

/-- C6 counterexample: member access on a `map[string]string` base with
an absent key yields the empty string, not null as the claim states for
every mapping-like base. -/
theorem claim6_counterexample :
    Resolve (.varAccessOffset (.staticVar (.smap [("a", "b")])) "x") ctx0 = .ok (.str "")
    ∧ Value.str "" ≠ Value.null := by
  refine ⟨rfl, ?_⟩
  intro h
  exact Value.noConfusion h

/-- C6 amended: member access first evaluates the base (errors propagate);
on a `map[string]any` base it returns the field's value, or null for an
absent key, with no error; on a `map[string]string` base it returns the
field's value, or the empty string for an absent key; any non-mapping
base is an evaluation error reporting the unexpected type. -/
theorem claim6_amended (ctx : Ctx) (base : GoVar) (off : String) (v : Value)
    (h : Resolve base ctx = .ok v) :
    (∀ m, v = .map m →
      Resolve (.varAccessOffset base off) ctx = .ok ((m.lookup off).getD .null))
    ∧ (∀ m, v = .smap m →
      Resolve (.varAccessOffset base off) ctx = .ok (.str ((m.lookup off).getD "")))
    ∧ (isMappingValue v = false →
      Resolve (.varAccessOffset base off) ctx
        = .error ("lookup failed, offset=" ++ off ++ " cur type=" ++ typeName v))
    ∧ (∀ (base2 : GoVar) (e : String), Resolve base2 ctx = .error e →
      Resolve (.varAccessOffset base2 off) ctx = .error e) := by
  have key : Resolve (.varAccessOffset base off) ctx = accessOffset off v := by
    show (do
      let s ← Resolve base ctx
      accessOffset off s) = _
    rw [h]
    rfl
  refine ⟨?_, ?_, ?_, ?_⟩
  · rintro m rfl
    rw [key]
    rfl
  · rintro m rfl
    rw [key]
    rfl
  · intro hm
    rw [key]
    match v, hm with
    | .null, _ => rfl
    | .bool _, _ => rfl
    | .int _, _ => rfl
    | .float _, _ => rfl
    | .str _, _ => rfl
  · intro base2 e he
    show (do
      let s ← Resolve base2 ctx
      accessOffset off s) = _
    rw [he]
    rfl

/-- Witness for C6 amended: a present key, an absent key on a value map
(null), an absent key on a string map (empty string), and an integer base
(error). -/
theorem claim6_witness :
    Resolve (.varAccessOffset (.staticVar (.map [("k", .int 7)])) "k") ctx0 = .ok (.int 7)
    ∧ Resolve (.varAccessOffset (.staticVar (.map [("k", .int 7)])) "z") ctx0 = .ok .null
    ∧ Resolve (.varAccessOffset (.staticVar (.int 3)) "z") ctx0
      = .error "lookup failed, offset=z cur type=int64" :=
  ⟨((claim6_amended ctx0 (.staticVar (.map [("k", .int 7)])) "k"
      (.map [("k", .int 7)]) rfl).1 [("k", .int 7)] rfl).trans (by rfl),
   ((claim6_amended ctx0 (.staticVar (.map [("k", .int 7)])) "z"
      (.map [("k", .int 7)]) rfl).1 [("k", .int 7)] rfl).trans (by rfl),
   (claim6_amended ctx0 (.staticVar (.int 3)) "z" (.int 3) rfl).2.2.1 rfl⟩

/-- C8 counterexample: in a backtick-delimited literal a backslash
followed by a backslash is NOT kept as two characters — the pair
collapses to a single backslash, contradicting the claim's "the backslash
and the following character are both kept" for the full escape set
`r n t v \`. -/
theorem claim8_counterexample :
    ReplaceGo ctx0 "\x7b\x7b`a\\\\b`\x7d\x7d" "text" = .ok "a\\b"
    ∧ ("a\\b" : String) ≠ "a\\\\b" := by
  refine ⟨by rfl, by decide⟩

/-- C8 amended: inside a double-quote-delimited literal a backslash
followed by one of `r n t v \` emits the corresponding control character;
in single-quoted and backtick-delimited literals a backslash followed by
one of `r n t v` keeps both characters, while a backslash followed by a
backslash collapses to a single backslash in every literal kind. -/
theorem claim8_amended :
    (∀ p : Char × Char,
      p ∈ ([('r', '\r'), ('n', '\n'), ('t', '\t'), ('v', Char.ofNat 11),
            ('\\', '\\')] : List (Char × Char)) →
      ∀ (fuel : Nat) (mode : String) (str : List Char) (res : List GoVar)
        (rest : List Char),
        parseStringLoop (fuel + 1) (some '"') mode str res ('\\' :: p.1 :: rest)
          = parseStringLoop fuel (some '"') mode (str ++ [p.2]) res rest)
    ∧ (∀ q, q ∈ (['\'', '`'] : List Char) →
      ∀ c, c ∈ (['r', 'n', 't', 'v'] : List Char) →
      ∀ (fuel : Nat) (mode : String) (str : List Char) (res : List GoVar)
        (rest : List Char),
        parseStringLoop (fuel + 2) (some q) mode str res ('\\' :: c :: rest)
          = parseStringLoop fuel (some q) mode (str ++ ['\\', c]) res rest)
    ∧ (∀ q, q ∈ (['\'', '`'] : List Char) →
      ∀ (fuel : Nat) (mode : String) (str : List Char) (res : List GoVar)
        (rest : List Char),
        parseStringLoop (fuel + 1) (some q) mode str res ('\\' :: '\\' :: rest)
          = parseStringLoop fuel (some q) mode (str ++ ['\\']) res rest) := by
  refine ⟨?_, ?_, ?_⟩
  · intro p hp fuel mode str res rest
    simp only [List.mem_cons, List.not_mem_nil, or_false] at hp
    rcases hp with rfl | rfl | rfl | rfl | rfl <;> rfl
  · intro q hq c hc fuel mode str res rest
    simp only [List.mem_cons, List.not_mem_nil, or_false] at hq hc
    rcases hq with rfl | rfl <;> rcases hc with rfl | rfl | rfl | rfl <;>
      simp [parseStringLoop, List.append_assoc]
  · intro q hq fuel mode str res rest
    simp only [List.mem_cons, List.not_mem_nil, or_false] at hq
    rcases hq with rfl | rfl <;> rfl

/-- Witness for C8 amended at concrete characters: tab decoding in double
quotes, backslash-t kept in backticks, double backslash collapsed in
single quotes. -/
theorem claim8_witness :
    parseStringLoop 9 (some '"') "text" [] [] ('\\' :: 't' :: ['"'])
      = parseStringLoop 8 (some '"') "text" ['\t'] [] ['"']
    ∧ parseStringLoop 9 (some '`') "text" [] [] ('\\' :: 't' :: ['`'])
      = parseStringLoop 7 (some '`') "text" ['\\', 't'] [] ['`']
    ∧ parseStringLoop 9 (some '\'') "text" [] [] ('\\' :: '\\' :: ['\''])
      = parseStringLoop 8 (some '\'') "text" ['\\'] [] ['\''] :=
  ⟨claim8_amended.1 ('t', '\t') (by decide) 8 "text" [] [] ['"'],
   claim8_amended.2.1 '`' (by decide) 't' (by decide) 7 "text" [] [] ['`'],
   claim8_amended.2.2 '\'' (by decide) 8 "text" [] [] ['\'']⟩

/-- Full characterization of `readNumberToken`: the consumed literal is a
prefix of the buffer made of digits with at most one point (none when the
flag says one was already seen), and the remaining buffer starts with a
non-digit which can only be a point if one was already consumed. -/
theorem readNumberToken_spec (buf : List Char) : ∀ hasDot : Bool,
    (readNumberToken hasDot buf).1 ++ (readNumberToken hasDot buf).2 = buf
    ∧ (∀ x ∈ (readNumberToken hasDot buf).1, isDigitGo x = true ∨ x = '.')
    ∧ (readNumberToken hasDot buf).1.count '.' + (if hasDot then 1 else 0) ≤ 1
    ∧ (∀ y ys, (readNumberToken hasDot buf).2 = y :: ys →
        isDigitGo y = false
        ∧ (y = '.' → hasDot = true ∨ '.' ∈ (readNumberToken hasDot buf).1)) := by
  induction buf with
  | nil =>
    intro hasDot
    refine ⟨rfl, by simp [readNumberToken], ?_, by simp [readNumberToken]⟩
    cases hasDot <;> simp [readNumberToken]
  | cons c rest ih =>
    intro hasDot
    by_cases hd : isDigitGo c = true
    · have hcd : c ≠ '.' := by
        intro hc
        rw [hc] at hd
        exact absurd hd (by decide)
      obtain ⟨ha, hm, hcount, hr⟩ := ih hasDot
      have hred : readNumberToken hasDot (c :: rest)
          = (c :: (readNumberToken hasDot rest).1, (readNumberToken hasDot rest).2) := by
        simp [readNumberToken, hd]
      rw [hred]
      refine ⟨by simpa using ha, ?_, ?_, ?_⟩
      · intro x hx
        rcases List.mem_cons.mp hx with rfl | hx2
        · exact Or.inl hd
        · exact hm x hx2
      · simpa [List.count_cons, hcd] using hcount
      · intro y ys hy
        obtain ⟨h1, h2⟩ := hr y ys hy
        exact ⟨h1, fun hy2 => (h2 hy2).imp id (fun hmem => List.mem_cons_of_mem c hmem)⟩
    · by_cases hdot : c = '.'
      · subst hdot
        cases hasDot with
        | true =>
          have hred : readNumberToken true ('.' :: rest) = ([], '.' :: rest) := by
            simp [readNumberToken, hd]
          rw [hred]
          exact ⟨rfl, by simp, by simp, fun y ys hy => by
            cases hy
            exact ⟨by decide, fun _ => Or.inl rfl⟩⟩
        | false =>
          obtain ⟨ha, hm, hcount, hr⟩ := ih true
          have hred : readNumberToken false ('.' :: rest)
              = ('.' :: (readNumberToken true rest).1, (readNumberToken true rest).2) := by
            simp [readNumberToken, hd]
          rw [hred]
          refine ⟨by simpa using ha, ?_, ?_, ?_⟩
          · intro x hx
            rcases List.mem_cons.mp hx with rfl | hx2
            · exact Or.inr rfl
            · exact hm x hx2
          · have hc0 : (readNumberToken true rest).1.count '.' = 0 := by
              simpa using hcount
            simp [List.count_cons, hc0]
          · intro y ys hy
            obtain ⟨h1, _⟩ := hr y ys hy
            exact ⟨h1, fun _ => Or.inr (List.mem_cons_self '.' _)⟩
      · have hred : readNumberToken hasDot (c :: rest) = ([], c :: rest) := by
          simp [readNumberToken, hd, hdot]
        rw [hred]
        refine ⟨rfl, by simp, ?_, fun y ys hy => ?_⟩
        · cases hasDot <;> simp
        · cases hy
          exact ⟨by simpa using hd, fun hc => absurd hc hdot⟩

/-- C9: when the tokenizer starts at a digit it returns a Number token
whose literal is exactly the consumed maximal digit/point run containing
at most one decimal point; a second `.` ends the token and is left
unconsumed at the head of the remaining input. -/
theorem claim9_number_token (c : Char) (cs : List Char) (h : isDigitGo c = true) :
    readToken (c :: cs) = (.TokenNumber, readNumberToken false (c :: cs))
    ∧ (readNumberToken false (c :: cs)).1 ++ (readNumberToken false (c :: cs)).2 = c :: cs
    ∧ (∀ x ∈ (readNumberToken false (c :: cs)).1, isDigitGo x = true ∨ x = '.')
    ∧ (readNumberToken false (c :: cs)).1.count '.' ≤ 1
    ∧ (∀ y ys, (readNumberToken false (c :: cs)).2 = y :: ys →
        isDigitGo y = false ∧ (y = '.' → '.' ∈ (readNumberToken false (c :: cs)).1)) := by
  obtain ⟨ha, hm, hcount, hr⟩ := readNumberToken_spec (c :: cs) false
  refine ⟨by simp [readToken, h], ha, hm, by simpa using hcount, ?_⟩
  intro y ys hy
  obtain ⟨h1, h2⟩ := hr y ys hy
  refine ⟨h1, fun hy2 => ?_⟩
  rcases h2 hy2 with hfalse | hmem
  · exact absurd hfalse (by decide)
  · exact hmem

/-- Witness for C9 on the input "12.3.4": the number token is "12.3" and
the second point stays at the head of the remaining input. -/
theorem claim9_witness :
    isDigitGo '1' = true
    ∧ readToken ('1' :: "2.3.4".data) = (.TokenNumber, readNumberToken false ('1' :: "2.3.4".data))
    ∧ readNumberToken false ('1' :: "2.3.4".data) = ("12.3".data, ".4".data) :=
  ⟨by decide, (claim9_number_token '1' "2.3.4".data (by decide)).1, by decide⟩

/-- Dropping the head preserves the absence of a two-character pattern. -/
theorem hasSub2_tail {a b x : Char} {l : List Char}
    (h : hasSub2 a b (x :: l) = false) : hasSub2 a b l = false := by
  cases l with
  | nil => rfl
  | cons y rest =>
    have : ((x = a && y = b) || hasSub2 a b (y :: rest)) = false := h
    exact (Bool.or_eq_false_iff.mp this).2

/-- On a buffer with no `{{` start and no double backslash, the literal
scanning loop (with no terminator) appends every character to the pending
buffer unchanged and finishes by flushing it. -/
theorem parseStringLoop_literal (mode : String) (buf : List Char) :
    ∀ (fuel : Nat) (str : List Char) (res : List GoVar),
      buf.length < fuel →
      hasSub2 '{' '{' buf = false →
      hasSub2 '\\' '\\' buf = false →
      parseStringLoop fuel none mode str res buf = .ok (flushStr (str ++ buf) res, []) := by
  induction buf with
  | nil =>
    intro fuel str res hf _ _
    match fuel with
    | f + 1 => simp [parseStringLoop]
  | cons c rest ih =>
    intro fuel str res hf h1 h2
    match fuel, hf with
    | f + 1, hf =>
      have hlen : rest.length < f := by
        have := Nat.lt_of_succ_lt_succ hf
        simpa using this
      by_cases hb : c = '\\'
      · subst hb
        cases rest with
        | nil =>
          have step : parseStringLoop (f + 1) none mode str res ['\\']
              = parseStringLoop f none mode (str ++ ['\\']) res [] := rfl
          rw [step, ih f (str ++ ['\\']) res (by simpa using hlen) rfl rfl]
          simp
        | cons nc r2 =>
          have hnc : nc ≠ '\\' := by
            intro hc
            subst hc
            have : ((('\\' : Char) = '\\' && ('\\' : Char) = '\\')
                || hasSub2 '\\' '\\' ('\\' :: r2)) = false := h2
            simp at this
          have step : parseStringLoop (f + 1) none mode str res ('\\' :: nc :: r2)
              = parseStringLoop f none mode (str ++ ['\\']) res (nc :: r2) := by
            simp only [parseStringLoop]
            simp [hnc]
          rw [step, ih f (str ++ ['\\']) res (by simpa using hlen)
            (hasSub2_tail h1) (hasSub2_tail h2)]
          simp
      · by_cases hbrace : c = '{'
        · subst hbrace
          have hhead : rest.head? ≠ some '{' := by
            intro hc
            cases rest with
            | nil => exact Option.noConfusion hc
            | cons y r2 =>
              have hy : y = '{' := by simpa using hc
              subst hy
              have : ((('{' : Char) = '{' && ('{' : Char) = '{')
                  || hasSub2 '{' '{' ('{' :: r2)) = false := h1
              simp at this
          have step : parseStringLoop (f + 1) none mode str res ('{' :: rest)
              = parseStringLoop f none mode (str ++ ['{']) res rest := by
            simp only [parseStringLoop]
            simp [hhead]
          rw [step, ih f (str ++ ['{']) res hlen (hasSub2_tail h1) (hasSub2_tail h2)]
          simp
        · have step : parseStringLoop (f + 1) none mode str res (c :: rest)
              = parseStringLoop f none mode (str ++ [c]) res rest := by
            simp only [parseStringLoop]
            simp [hb, hbrace]
          rw [step, ih f (str ++ [c]) res hlen (hasSub2_tail h1) (hasSub2_tail h2)]
          simp

/-- C3 counterexample: the two-character input holding two backslashes
contains no `{{`, yet parsing and evaluating yields a single backslash,
not the input unchanged. -/
theorem claim3_counterexample :
    hasSub2 '{' '{' ("\\\\" : String).data = false
    ∧ ReplaceGo ctx0 "\\\\" "text" = .ok "\\"
    ∧ ("\\" : String) ≠ "\\\\" :=
  ⟨by decide, by rfl, by decide⟩

/-- C3 amended: for every input containing no `{{` start sequence and no
two consecutive backslashes, parsing the input as a template (in either
mode) and evaluating the result against any context returns the input
unchanged. -/
theorem claim3_roundtrip (s : String) (mode : String) (ctx : Ctx)
    (h1 : hasSub2 '{' '{' s.data = false)
    (h2 : hasSub2 '\\' '\\' s.data = false) :
    ∃ v, ParseStringGo s mode = .ok v ∧ Resolve v ctx = .ok (.str s) := by
  have hlen : s.data.length < 4 * s.length + 8 := by
    have : s.length = s.data.length := rfl
    omega
  have hloop := parseStringLoop_literal mode s.data (4 * s.length + 8) [] [] hlen h1 h2
  have hparse : ParseStringGo s mode = .ok (parseStringFinish (flushStr s.data [])) := by
    show (do
      let (vars, _) ← parseStringLoop (4 * s.length + 8) none mode [] [] s.data
      .ok (parseStringFinish vars)) = _
    rw [show ([] : List Char) ++ s.data = s.data from rfl] at hloop
    rw [hloop]
    rfl
  cases hs : s.data with
  | nil =>
    refine ⟨.varConcat [], ?_, ?_⟩
    · rw [hparse, hs]
      rfl
    · have : s = "" := by
        cases s with
        | mk d => simp at hs; rw [hs]
      rw [this]
      rfl
  | cons c rest =>
    refine ⟨.staticVar (.str s), ?_, rfl⟩
    rw [hparse, hs]
    have hmk : String.mk (c :: rest) = s := by
      cases s with
      | mk d => rw [← hs]
    show Except.ok (parseStringFinish (flushStr (c :: rest) [])) = _
    rw [show flushStr (c :: rest) [] = [.staticVar (.str (String.mk (c :: rest)))] by
      simp [flushStr]]
    rw [hmk]
    rfl

/-- Witness for C3 amended on a literal containing a lone backslash and a
lone brace. -/
theorem claim3_witness :
    hasSub2 '{' '{' ("a\\t\x7bb" : String).data = false
    ∧ hasSub2 '\\' '\\' ("a\\t\x7bb" : String).data = false
    ∧ ∃ v, ParseStringGo "a\\t\x7bb" "text" = .ok v
        ∧ Resolve v ctx0 = .ok (.str "a\\t\x7bb") :=
  ⟨by decide, by decide, claim3_roundtrip "a\\t\x7bb" "text" ctx0 (by decide) (by decide)⟩

end Replvar
